import Mathlib

/-!
Verification of the pipdance robot-arm choreography system against its
specification.  The Python sources are shallowly embedded: byte strings
become `List Nat` (entries are byte values), Python floats become exact
rationals `ℚ` (spec clauses "within floating tolerance" are settled over
exact arithmetic), dictionaries become lookup functions or association
lists, and the transcendental `math.sin` is abstracted as a function
parameter `s : ℚ → ℚ` with `s x` standing for `sin (2 * π * x)`; every
property proved here holds for all `s`, since the verified code paths
short-circuit before evaluating the sine.
-/

namespace PipDance

/-! Frame codec constants, from `src/piper/can/waveshare_bus.py`. -/

def FRAME_START : Nat := 0xAA

def FRAME_END : Nat := 0x55

def TYPE_STANDARD : Nat := 0xC0

def TYPE_EXTENDED : Nat := 0xE0

def TYPE_REMOTE : Nat := 0x10

/-- A CAN message as the codec sees it (`can.Message`): arbitration id, data
bytes, extended-id and remote-frame flags.  The receive wall-clock timestamp
is omitted from the model. -/
structure Msg where
  arbitration_id : Nat
  data : List Nat
  is_extended_id : Bool
  is_remote_frame : Bool
deriving DecidableEq, Repr

/-- `struct.pack` of an in-range 16-bit value, little-endian (two bytes). -/
def pack16 (x : Nat) : List Nat := [x % 256, x / 256 % 256]

/-- `struct.pack` of an in-range 32-bit value, little-endian (four bytes). -/
def pack32 (x : Nat) : List Nat :=
  [x % 256, x / 256 % 256, x / 65536 % 256, x / 16777216 % 256]

/-- `struct.unpack` of a little-endian 16-bit value. -/
def unpack16 (b : List Nat) : Nat := b.getD 0 0 + 256 * b.getD 1 0

/-- `struct.unpack` of a little-endian 32-bit value. -/
def unpack32 (b : List Nat) : Nat :=
  b.getD 0 0 + 256 * b.getD 1 0 + 65536 * b.getD 2 0 + 16777216 * b.getD 3 0

/-- `WaveshareBus._encode_frame`: start byte, type/len byte (bit5 extended,
bit4 remote, low nibble data length), little-endian id (2 bytes standard,
4 bytes extended), data bytes, end byte. -/
def encode_frame (msg : Msg) : List Nat :=
  [FRAME_START,
    ((if msg.is_extended_id then TYPE_EXTENDED else TYPE_STANDARD) |||
        (if msg.is_remote_frame then TYPE_REMOTE else 0)) |||
      (msg.data.length &&& 0x0F)] ++
    (if msg.is_extended_id then pack32 msg.arbitration_id
      else pack16 msg.arbitration_id) ++
    msg.data ++ [FRAME_END]

/-- `WaveshareBus._decode_frame`: `none` for short input or wrong markers;
otherwise fields are read back from the type/len byte, the little-endian id
slice and the data slice `data[data_start:-1][:dlc]`.  Total by construction
(the Python function raises on no input: every slice it takes is in range
once the guards pass). -/
def decode_frame (data : List Nat) : Option Msg :=
  if data.length < 4 then none
  else if data.headD 0 ≠ FRAME_START ∨ data.getLastD 0 ≠ FRAME_END then none
  else if data.getD 1 0 &&& 0x20 != 0 then
    if data.length < 7 then none
    else
      some ⟨unpack32 ((data.drop 2).take 4),
        ((data.drop 6).dropLast).take (data.getD 1 0 &&& 0x0F),
        true, data.getD 1 0 &&& 0x10 != 0⟩
  else
    some ⟨unpack16 ((data.drop 2).take 2),
      ((data.drop 4).dropLast).take (data.getD 1 0 &&& 0x0F),
      false, data.getD 1 0 &&& 0x10 != 0⟩

/-- `bytearray.find`: index of the first occurrence of byte `v`, if any. -/
def findFirst (v : Nat) : List Nat → Option Nat
  | [] => none
  | b :: bs => if b = v then some 0 else (findFirst v bs).map (· + 1)

/-- One pass of the frame-scanning loop body in `WaveshareBus._recv_internal`:
find the start marker, discard leading garbage, find the end marker from
index 1 on, and hand the enclosed bytes to the codec.  `none` when the buffer
holds no complete `[start ... end]` region (the loop then reads more bytes);
`some (om, rest)` removes the region, where `om` is the codec's verdict
(a failed decode is dropped silently by the caller). -/
def extract_frame (buf : List Nat) : Option (Option Msg × List Nat) :=
  match findFirst FRAME_START buf with
  | none => none
  | some start_idx =>
    match findFirst FRAME_END ((buf.drop start_idx).drop 1) with
    | none => none
    | some e1 =>
      some (decode_frame ((buf.drop start_idx).take (e1 + 2)),
        (buf.drop start_idx).drop (e1 + 2))

/-- Repeated frame extraction from a receive buffer, collecting the decoded
messages in order.  The fuel only bounds iteration; `scan_all` passes the
buffer length, which suffices because each extraction removes at least two
bytes. -/
def scan_loop : Nat → List Nat → List Msg × List Nat
  | 0, buf => ([], buf)
  | fuel + 1, buf =>
    match extract_frame buf with
    | none => ([], buf)
    | some (om, rest) =>
      let p := scan_loop fuel rest
      (match om with
        | some m => m :: p.1
        | none => p.1, p.2)

/-- All messages the transport's scanner extracts from a buffer before it has
to wait for more bytes, with the remaining (frame-less) buffer. -/
def scan_all (buf : List Nat) : List Msg × List Nat := scan_loop buf.length buf

/-- One `read` arriving: the fresh chunk is appended to the buffered
remainder and the scanner drains every complete frame. -/
def feed_chunk (st : List Msg × List Nat) (c : List Nat) : List Msg × List Nat :=
  let p := scan_all (st.2 ++ c)
  (st.1 ++ p.1, p.2)

/-- The transport fed a sequence of reads: all messages produced, in order,
with the final buffered remainder. -/
def process_chunks (chunks : List (List Nat)) : List Msg × List Nat :=
  chunks.foldl feed_chunk ([], [])

/-- A CAN frame that fits the protocol: the arbitration id fits its width
(29-bit extended, 11-bit standard), at most 8 data bytes, data entries are
bytes. -/
def ValidMsg (m : Msg) : Prop :=
  (m.is_extended_id = true → m.arbitration_id < 2 ^ 29) ∧
  (m.is_extended_id = false → m.arbitration_id < 2 ^ 11) ∧
  m.data.length ≤ 8 ∧ ∀ b ∈ m.data, b < 256

instance : DecidablePred ValidMsg := fun m => by
  unfold ValidMsg; infer_instance

/-! Interpolation, from `src/piper/choreography/interpolation.py`. -/

/-- `EasingType` enumeration. -/
inductive EasingType
  | none
  | ease_in
  | ease_out
  | ease_in_out
deriving DecidableEq, Repr

/-- `linear_interpolate`. -/
def linear_interpolate (start stop t : ℚ) : ℚ := start + (stop - start) * t

/-- `apply_easing`: cubic easing profiles on the local segment fraction. -/
def apply_easing (t : ℚ) (easing : EasingType) : ℚ :=
  match easing with
  | EasingType.none => t
  | EasingType.ease_in => t * t * t
  | EasingType.ease_out => 1 - (1 - t) * (1 - t) * (1 - t)
  | EasingType.ease_in_out =>
    if t < 0.5 then 4 * t * t * t
    else 1 - (-2 * t + 2) * (-2 * t + 2) * (-2 * t + 2) / 2

/-- `interpolate_joints`: elementwise linear interpolation with an eased
fraction. -/
def interpolate_joints (start stop : List ℚ) (t : ℚ) (easing : EasingType) : List ℚ :=
  List.zipWith (fun s e => linear_interpolate s e (apply_easing t easing)) start stop

/-- `cubic_spline_segment`: the Catmull-Rom basis on four control points. -/
def cubic_spline_segment (p0 p1 p2 p3 t : ℚ) : ℚ :=
  0.5 * ((2 * p1) + (-p0 + p2) * t + (2 * p0 - 5 * p1 + 4 * p2 - p3) * (t * t) +
    (-p0 + 3 * p1 - 3 * p2 + p3) * (t * t * t))

/-- The segment-finding scan shared verbatim by `LinearInterpolator._find_segment`
and `CubicSplineInterpolator._find_segment`: the first window with
`times[i] <= t < times[i+1]`, with the local fraction guarded against a zero
duration. -/
def seg_scan (t : ℚ) : List ℚ → Nat → Option (Nat × ℚ)
  | t0 :: t1 :: rest, i =>
    if t0 ≤ t ∧ t < t1 then
      some (i, if 0 < t1 - t0 then (t - t0) / (t1 - t0) else 0)
    else seg_scan t (t1 :: rest) (i + 1)
  | _, _ => none

/-- `_find_segment` (identical in both interpolator classes): clamp before the
first time to `(0, 0)`, at or past the last time to `(n-2, 1)`, otherwise scan
for the containing window (with the same `(n-2, 1)` fallback). -/
def find_segment (times : List ℚ) (t : ℚ) : Nat × ℚ :=
  if t ≤ times.headD 0 then (0, 0)
  else if times.getLastD 0 ≤ t then (times.length - 2, 1)
  else (seg_scan t times 0).getD (times.length - 2, 1)

/-- The control points both interpolator classes are built from: waypoint
times and the joint-position rows at each time. -/
structure InterpData where
  times : List ℚ
  positions : List (List ℚ)

/-- `LinearInterpolator.interpolate`. -/
def LinearInterpolator.interpolate (ip : InterpData) (t : ℚ) (easing : EasingType) : List ℚ :=
  let sl := find_segment ip.times t
  let local_t := apply_easing sl.2 easing
  List.zipWith (fun s e => linear_interpolate s e local_t)
    (ip.positions.getD sl.1 [])
    (ip.positions.getD (min (sl.1 + 1) (ip.times.length - 1)) [])

/-- `CubicSplineInterpolator.interpolate`: Catmull-Rom on the four control
rows around the segment, indices clamped at the sequence boundaries (`i0` uses
truncated `Nat` subtraction, which equals Python's `max(0, seg_idx - 1)`). -/
def CubicSplineInterpolator.interpolate (ip : InterpData) (t : ℚ) (easing : EasingType) : List ℚ :=
  let sl := find_segment ip.times t
  let local_t := apply_easing sl.2 easing
  let n_points := ip.times.length
  (List.range (ip.positions.headD []).length).map fun j =>
    cubic_spline_segment
      ((ip.positions.getD (sl.1 - 1) []).getD j 0)
      ((ip.positions.getD sl.1 []).getD j 0)
      ((ip.positions.getD (min (n_points - 1) (sl.1 + 1)) []).getD j 0)
      ((ip.positions.getD (min (n_points - 1) (sl.1 + 2)) []).getD j 0)
      local_t

/-- `create_interpolator` dispatch, applied at a time: "cubic" selects the
Catmull-Rom interpolator, anything else the linear one. -/
def interpolate_at (interpolation : String) (ip : InterpData) (t : ℚ) (easing : EasingType) : List ℚ :=
  if interpolation = "cubic" then CubicSplineInterpolator.interpolate ip t easing
  else LinearInterpolator.interpolate ip t easing

/-! Groove modulation, from `src/piper/choreography/groove.py`. -/

def JOINT_ORDER : List String := ["J1", "J2", "J3", "J4", "J5", "J6"]

/-- `DEFAULT_GROOVE_AMPLITUDES` with its `.get(name, 0.0)` access folded in. -/
def DEFAULT_GROOVE_AMPLITUDES : String → ℚ := fun j =>
  if j = "J2" then 2 else if j = "J3" then 1.5 else if j = "J5" then 1 else 0

/-- `NULL_GROOVE_AMPLITUDES`: zero for every joint. -/
def NULL_GROOVE_AMPLITUDES : String → ℚ := fun _ => 0

/-- `GrooveConfig`. -/
structure GrooveConfig where
  bpm : ℚ
  amplitudes_deg : String → ℚ
  phase_offset_s : ℚ
  beat_multiplier : ℚ

/-- `compute_groove_offset`: zero when the amplitude is zero or the tempo is
not positive (this guard runs before the sine is touched); otherwise
`amplitude * sin(2π * (bpm/60) * multiplier * (t + phase))`, with the sine
abstracted by `s` (see the file comment). -/
def compute_groove_offset (s : ℚ → ℚ)
    (time_s bpm amplitude_deg phase_offset_s beat_multiplier : ℚ) : ℚ :=
  if amplitude_deg = 0 ∨ bpm ≤ 0 then 0
  else amplitude_deg * s (bpm / 60 * beat_multiplier * (time_s + phase_offset_s))

/-- `apply_groove_to_joints`: each of the six joints gets its configured
amplitude (scaled by the per-checkpoint multiplier) worth of offset added.
Joint lists have length 6 throughout the system. -/
def apply_groove_to_joints (s : ℚ → ℚ) (joints_deg : List ℚ) (time_s : ℚ)
    (config : GrooveConfig) (amplitude_scale : ℚ) : List ℚ :=
  List.zipWith
    (fun j joint_name =>
      j + compute_groove_offset s time_s config.bpm
        (config.amplitudes_deg joint_name * amplitude_scale)
        config.phase_offset_s config.beat_multiplier)
    joints_deg JOINT_ORDER

/-- `create_groove_config`: a missing or zero tempo yields the null groove
(all amplitudes zero, the identity transform). -/
def create_groove_config (bpm : Option ℚ) (phase_offset_s beat_multiplier : ℚ) :
    GrooveConfig :=
  match bpm with
  | Option.none => ⟨0, NULL_GROOVE_AMPLITUDES, 0, 1⟩
  | Option.some b =>
    if b = 0 then ⟨0, NULL_GROOVE_AMPLITUDES, 0, 1⟩
    else ⟨b, DEFAULT_GROOVE_AMPLITUDES, phase_offset_s, beat_multiplier⟩

/-! Choreography data, from `src/piper/choreography/script.py`. -/

/-- `Checkpoint` exactly as the dataclass in `script.py` declares it: arrival
time and pose name, nothing else. -/
structure Checkpoint where
  time_s : ℚ
  pose_name : String
deriving DecidableEq, Repr

/-- `Pose`: a named pose with its six joint angles in degrees. -/
structure Pose where
  name : String
  joints_deg : List ℚ
deriving DecidableEq, Repr

/-- `Choreography` as the dataclass in `script.py`: poses, checkpoints and
collected warnings. -/
structure Choreography where
  poses : List (String × Pose)
  checkpoints : List Checkpoint
  warnings : List String
deriving DecidableEq, Repr

/-- Modelled from the spec: the checkpoint record `compile_trajectory`
consumes.  The spec's data model gives a Checkpoint an "optional
groove-amplitude multiplier (default 1.0)" and `trajectory.py` reads
`cp.groove_amplitude`, but the `Checkpoint` dataclass in the repository's
`script.py` lacks the field (settled under C5). -/
structure CheckpointG where
  time_s : ℚ
  pose_name : String
  groove_amplitude : ℚ
deriving DecidableEq, Repr

/-- Modelled from the spec: the choreography record `compile_trajectory`
consumes.  `compile_trajectory` reads `choreography.bpm` and
`choreography.groove_phase` (the spec's "optional groove tempo" metadata);
the dataclass in the repository's `script.py` lacks both fields. -/
structure ChoreographyG where
  poses : List (String × Pose)
  checkpoints : List CheckpointG
  bpm : Option ℚ
  groove_phase : ℚ

/-! Trajectory compilation, from `src/piper/choreography/trajectory.py`. -/

/-- `Waypoint` as the dataclass in `trajectory.py`: time and joint angles. -/
structure Waypoint where
  time_s : ℚ
  joints_deg : List ℚ
deriving DecidableEq, Repr

/-- `Trajectory`. -/
structure Trajectory where
  waypoints : List Waypoint
  interval_ms : ℤ
  interpolation : String
  easing : EasingType
  total_duration_s : ℚ
  groove_bpm : Option ℚ

/-- The window scan inside `_interpolate_groove_amplitude`: linear
interpolation of the groove multiplier between the surrounding checkpoints. -/
def amp_scan (time_s : ℚ) : List CheckpointG → Option ℚ
  | c0 :: c1 :: rest =>
    if c0.time_s ≤ time_s ∧ time_s ≤ c1.time_s then
      some (if c1.time_s = c0.time_s then c0.groove_amplitude
        else c0.groove_amplitude +
          (time_s - c0.time_s) / (c1.time_s - c0.time_s) *
            (c1.groove_amplitude - c0.groove_amplitude))
    else amp_scan time_s (c1 :: rest)
  | _ => none

/-- `_interpolate_groove_amplitude`: clamped to the end multipliers outside
the checkpoint range, linearly interpolated inside, default 1.0. -/
def interpolate_groove_amplitude (time_s : ℚ) (checkpoints : List CheckpointG) : ℚ :=
  match checkpoints with
  | [] => 1
  | c :: _ =>
    if time_s ≤ c.time_s then c.groove_amplitude
    else if (checkpoints.getLastD c).time_s ≤ time_s then
      (checkpoints.getLastD c).groove_amplitude
    else (amp_scan time_s checkpoints).getD 1

/-- Dictionary access `choreography.poses[name]`.  Load-time validation
guarantees the name resolves wherever the compiler uses it; an absent name
yields an empty pose here. -/
def lookup_pose (poses : List (String × Pose)) (name : String) : Pose :=
  ((poses.find? (fun p => p.1 == name)).map Prod.snd).getD ⟨name, []⟩

/-- The resampling while-loop of `compile_trajectory`: sample every
`interval_s` from the current time while it has not passed `end_time`,
interpolating, scaling the groove multiplier and applying the groove at each
sample.  The fuel only bounds iteration; the caller passes
`⌈(end_time - start)/interval_s⌉ + 1`, which is never less than the
`⌊(end_time - start)/interval_s⌋ + 1` samples the loop produces. -/
def resample_loop (s : ℚ → ℚ) (interpolation : String) (ip : InterpData)
    (easing : EasingType) (groove : GrooveConfig) (checkpoints : List CheckpointG)
    (interval_s end_time : ℚ) : Nat → ℚ → List Waypoint
  | 0, _ => []
  | fuel + 1, current_time =>
    if current_time ≤ end_time then
      Waypoint.mk current_time
        (apply_groove_to_joints s
          (interpolate_at interpolation ip current_time easing)
          current_time groove
          (interpolate_groove_amplitude current_time checkpoints)) ::
        resample_loop s interpolation ip easing groove checkpoints
          interval_s end_time fuel (current_time + interval_s)
    else []

/-- The exact-final-sample fixup at the end of `compile_trajectory`: when the
last resampled time missed the end time by more than 1 ms, append an exact
end-time sample. -/
def append_final_sample (s : ℚ → ℚ) (interpolation : String) (ip : InterpData)
    (easing : EasingType) (groove : GrooveConfig) (checkpoints : List CheckpointG)
    (end_time : ℚ) (waypoints : List Waypoint) : List Waypoint :=
  match waypoints.getLast? with
  | Option.none => waypoints
  | Option.some last =>
    if 0.001 < |last.time_s - end_time| then
      waypoints ++
        [Waypoint.mk end_time
          (apply_groove_to_joints s
            (interpolate_at interpolation ip end_time easing)
            end_time groove
            (interpolate_groove_amplitude end_time checkpoints))]
    else waypoints

/-- `compile_trajectory`.  The `EasingType(easing)` enum conversion is taken
as already resolved (`easing_type`); `interpolation` stays the string the
source dispatches on. -/
def compile_trajectory (s : ℚ → ℚ) (choreography : ChoreographyG)
    (interval_ms : ℤ) (interpolation : String) (easing_type : EasingType) :
    Trajectory :=
  let groove := create_groove_config choreography.bpm choreography.groove_phase 1
  if choreography.checkpoints.isEmpty then
    ⟨[], 0, interpolation, easing_type, 0, choreography.bpm⟩
  else
    let times := choreography.checkpoints.map (fun cp => cp.time_s)
    let positions := choreography.checkpoints.map
      (fun cp => (lookup_pose choreography.poses cp.pose_name).joints_deg)
    let end_time := times.getLastD 0
    if interpolation = "none" then
      ⟨choreography.checkpoints.map (fun cp =>
          Waypoint.mk cp.time_s
            (apply_groove_to_joints s
              (lookup_pose choreography.poses cp.pose_name).joints_deg
              cp.time_s groove cp.groove_amplitude)),
        0, interpolation, easing_type, end_time, choreography.bpm⟩
    else
      let ip : InterpData := ⟨times, positions⟩
      let interval_s := (interval_ms : ℚ) / 1000
      let start_time := times.headD 0
      let fuel := (⌈(end_time - start_time) / interval_s⌉).toNat + 1
      ⟨append_final_sample s interpolation ip easing_type groove
          choreography.checkpoints end_time
          (resample_loop s interpolation ip easing_type groove
            choreography.checkpoints interval_s end_time fuel start_time),
        interval_ms, interpolation, easing_type, end_time, choreography.bpm⟩

/-! Dual-arm execution rounds, from `src/piper/choreography/runner.py`. -/

/-- The per-arm current head waypoints (`current_waypoints` without the
exhausted arms), in the dict's insertion order. -/
def head_waypoints (state : List (String × List Waypoint)) : List (String × Waypoint) :=
  state.filterMap (fun lw => lw.2.head?.map (fun w => (lw.1, w)))

/-- Python `min` over a nonempty collection. -/
def list_min_q (x : ℚ) (xs : List ℚ) : ℚ := xs.foldl min x

/-- Advancing the iterators: each arm whose head waypoint lies within 1 ms of
the round time has it consumed. -/
def consume_round (state : List (String × List Waypoint)) (next_time : ℚ) :
    List (String × List Waypoint) :=
  state.map (fun lw =>
    match lw.2 with
    | [] => lw
    | w :: rest => if |w.time_s - next_time| < 0.001 then (lw.1, rest) else lw)

/-- The dispatch-round structure of `run_dual_trajectory`: while any arm still
has waypoints, the round time is the minimum head time, the round dispatches
every arm whose head is within 1 ms of it (all of them before the wait to the
next round begins), and those heads are consumed.  The fuel only bounds
iteration; `dual_rounds` passes the total waypoint count, which suffices
because every round consumes at least the head achieving the minimum. -/
def dual_rounds_loop : Nat → List (String × List Waypoint) →
    List (ℚ × List (String × Waypoint))
  | 0, _ => []
  | fuel + 1, state =>
    match head_waypoints state with
    | [] => []
    | h :: hs =>
      let next_time := list_min_q h.2.time_s (hs.map (fun p => p.2.time_s))
      (next_time, (h :: hs).filter (fun p => |p.2.time_s - next_time| < 0.001)) ::
        dual_rounds_loop fuel (consume_round state next_time)

/-- All dispatch rounds of `run_dual_trajectory`, in order. -/
def dual_rounds (state : List (String × List Waypoint)) :
    List (ℚ × List (String × Waypoint)) :=
  dual_rounds_loop (state.foldl (fun n lw => n + lw.2.length) 0) state

/-! Schedule parsing and validation, from `src/piper/choreography/script.py`. -/

/-- Per-joint speed limit table: 172 deg/s for every joint. -/
def JOINT_MAX_SPEED_DEG : String → ℚ := fun _ => 172

/-- Per-joint position limit table (degrees), from the URDF. -/
def JOINT_LIMITS_DEG : String → ℚ × ℚ := fun j =>
  if j = "J1" then (-150, 150)
  else if j = "J2" then (0, 180)
  else if j = "J3" then (-170, 0)
  else if j = "J4" then (-100, 100)
  else if j = "J5" then (-70, 70)
  else if j = "J6" then (-120, 120)
  else (0, 0)

def digitVal (c : Char) : Nat := c.toNat - 48

/-- Matching the regex head `(\d{1,2}):` of CHECKPOINT_RE.  The greedy
1-or-2-digit group with backtracking reduces to: two digits followed by a
colon if that fits, else one digit followed by a colon. -/
def parse_minutes : List Char → Option (Nat × List Char)
  | a :: b :: ':' :: rest =>
    if a.isDigit ∧ b.isDigit then some (digitVal a * 10 + digitVal b, rest)
    else none
  | a :: ':' :: rest => if a.isDigit then some (digitVal a, rest) else none
  | _ => none

/-- Matching `(\d{2})` of CHECKPOINT_RE. -/
def parse_two_digits : List Char → Option (Nat × List Char)
  | a :: b :: rest =>
    if a.isDigit ∧ b.isDigit then some (digitVal a * 10 + digitVal b, rest)
    else none
  | _ => none

/-- Matching `(\d{3})` of CHECKPOINT_RE. -/
def parse_three_digits : List Char → Option (Nat × List Char)
  | a :: b :: c :: rest =>
    if a.isDigit ∧ b.isDigit ∧ c.isDigit then
      some (digitVal a * 100 + digitVal b * 10 + digitVal c, rest)
    else none
  | _ => none

def isWordChar (c : Char) : Bool := c.isAlphanum || c == '_'

/-- `re.match` of `CHECKPOINT_RE = (\d{1,2}):(\d{2})\.(\d{3})\s*[-–]\s*(\w+)`
against a stripped line (prefix-anchored: trailing text after the pose name,
such as a `groove-xN` suffix, is outside the pattern and ignored).  Yields
the checkpoint time in seconds and the pose name. -/
def match_checkpoint (cs : List Char) : Option (ℚ × String) := do
  let (minutes, cs) ← parse_minutes cs
  let (seconds, cs) ← parse_two_digits cs
  let cs ← match cs with
    | '.' :: r => some r
    | _ => none
  let (ms, cs) ← parse_three_digits cs
  let cs := cs.dropWhile Char.isWhitespace
  let cs ← match cs with
    | '-' :: r => some r
    | '–' :: r => some r
    | _ => none
  let cs := cs.dropWhile Char.isWhitespace
  let w := cs.takeWhile isWordChar
  if w.isEmpty then none
  else some (((minutes * 60 + seconds : Nat) : ℚ) + (ms : ℚ) / 1000, String.mk w)

/-- Python `str.strip`, over the line's characters. -/
def strip_chars (cs : List Char) : List Char :=
  ((cs.dropWhile Char.isWhitespace).reverse.dropWhile Char.isWhitespace).reverse

/-- `parse_schedule` over the schedule file's lines: strip each line, skip
blank and `#`-comment lines, and keep the lines CHECKPOINT_RE matches as
checkpoints (non-matching lines are skipped silently). -/
def parse_schedule (lines : List String) : List Checkpoint :=
  lines.filterMap (fun line =>
    let cs := strip_chars line.toList
    if cs.isEmpty ∨ cs.headD ' ' = '#' then Option.none
    else (match_checkpoint cs).map (fun tp => Checkpoint.mk tp.1 tp.2))

/-- Python's `"{q:.1f}"` on an exact rational: one decimal digit.  The values
rendered in this development are exact at one decimal, so the tie-breaking
convention never matters. -/
def fmt_fixed1 (q : ℚ) : String :=
  let n : ℤ := round (q * 10)
  (if n < 0 then "-" else "") ++ toString (n.natAbs / 10) ++ "." ++
    toString (n.natAbs % 10)

/-- Python's `str()` of a float, restricted to the integral values the
warnings render it on (for example `172.0`). -/
def py_float_str (q : ℚ) : String :=
  if q.den = 1 then toString q.num ++ ".0" else fmt_fixed1 q

/-- The joint-limit warnings one pose contributes in `load_choreography`. -/
def joint_limit_warnings_for (pose : Pose) : List String :=
  (List.range JOINT_ORDER.length).filterMap (fun idx =>
    let joint := JOINT_ORDER.getD idx ""
    let pos := pose.joints_deg.getD idx 0
    if pos < (JOINT_LIMITS_DEG joint).1 ∨ (JOINT_LIMITS_DEG joint).2 < pos then
      some ("Joint limit: pose \x27" ++ pose.name ++ "\x27 " ++ joint ++ "=" ++
        fmt_fixed1 pos ++ "° outside [" ++ fmt_fixed1 (JOINT_LIMITS_DEG joint).1 ++
        "°, " ++ fmt_fixed1 (JOINT_LIMITS_DEG joint).2 ++ "°]")
    else Option.none)

/-- The joint-limit validation loop of `load_choreography`: each referenced
pose is checked once, in first-reference order (`validated_poses` is the seen
set). -/
def collect_joint_warnings (poses : List (String × Pose)) :
    List Checkpoint → List String → List String
  | [], _ => []
  | cp :: rest, seen =>
    if cp.pose_name ∈ seen then collect_joint_warnings poses rest seen
    else
      joint_limit_warnings_for (lookup_pose poses cp.pose_name) ++
        collect_joint_warnings poses rest (cp.pose_name :: seen)

/-- The speed-limit validation loop of `load_choreography` over consecutive
checkpoint pairs: a non-positive duration contributes an invalid-timing
warning and skips the pair, otherwise each joint whose angular speed exceeds
its limit contributes one warning naming the pose pair and the joint. -/
def speed_warnings (poses : List (String × Pose)) : List Checkpoint → List String
  | prev :: curr :: rest =>
    (if curr.time_s - prev.time_s ≤ 0 then
      ["Invalid timing: " ++ prev.pose_name ++ "@" ++ py_float_str prev.time_s ++
        "s -> " ++ curr.pose_name ++ "@" ++ py_float_str curr.time_s ++
        "s (duration=" ++ py_float_str (curr.time_s - prev.time_s) ++ "s)"]
    else
      (List.range JOINT_ORDER.length).filterMap (fun idx =>
        let joint := JOINT_ORDER.getD idx ""
        let speed :=
          |(lookup_pose poses curr.pose_name).joints_deg.getD idx 0 -
            (lookup_pose poses prev.pose_name).joints_deg.getD idx 0| /
            (curr.time_s - prev.time_s)
        if JOINT_MAX_SPEED_DEG joint < speed then
          some ("Speed limit: " ++ prev.pose_name ++ "->" ++ curr.pose_name ++
            " " ++ joint ++ ": " ++ fmt_fixed1 speed ++ " deg/s > " ++
            py_float_str (JOINT_MAX_SPEED_DEG joint) ++ " deg/s")
        else Option.none)) ++
      speed_warnings poses (curr :: rest)
  | _ => []

/-- `load_choreography` after the pose and schedule files are read: an
unresolved pose name is fatal (first offender, as the source's loop raises),
otherwise the choreography is returned with the joint-limit and speed-limit
warnings collected (the "Available: ..." key listing of the error text is
omitted; no claim touches it). -/
def load_choreography_check (poses : List (String × Pose))
    (checkpoints : List Checkpoint) : Except String Choreography :=
  match checkpoints.find? (fun cp => (poses.find? (fun p => p.1 == cp.pose_name)).isNone) with
  | Option.some cp =>
    Except.error ("Pose \x27" ++ cp.pose_name ++ "\x27 at " ++
      py_float_str cp.time_s ++ "s not found in poses file.")
  | Option.none =>
    Except.ok ⟨poses, checkpoints,
      collect_joint_warnings poses checkpoints [] ++ speed_warnings poses checkpoints⟩

/-! Gripper command and feedback scaling, from `src/piper/adapters/waveshare.py`. -/

instance {α β : Type} [DecidableEq α] [DecidableEq β] : DecidableEq (Except α β) :=
  fun a b =>
    match a, b with
    | Except.ok x, Except.ok y =>
      if h : x = y then isTrue (by rw [h]) else isFalse (fun hh => by cases hh; exact h rfl)
    | Except.error x, Except.error y =>
      if h : x = y then isTrue (by rw [h]) else isFalse (fun hh => by cases hh; exact h rfl)
    | Except.ok _, Except.error _ => isFalse (fun hh => by cases hh)
    | Except.error _, Except.ok _ => isFalse (fun hh => by cases hh)

/-- Python `int()` truncation toward zero on an exact rational. -/
def int_trunc (q : ℚ) : ℤ := q.num.tdiv q.den

/-- The on-wire gripper position from `_send_gripper_command`:
`int(position * 70000)`, with no clamping of the commanded position. -/
def gripper_command_pos (position : ℚ) : ℤ := int_trunc (position * 70000)

/-- The gripper feedback decode from `_process_feedback_msg`:
`max(0.0, min(1.0, pos / 70000.0))`, clamped into [0, 1]. -/
def decode_gripper_feedback (pos : ℤ) : ℚ := max 0 (min 1 ((pos : ℚ) / 70000))



/-- The single-arm scenario of the spec: pose A with all six joints at 0
degrees and pose B with J2 at 90 degrees. -/
def poseA : Pose := ⟨"A", [0, 0, 0, 0, 0, 0]⟩

/-- Pose B of the scenario: J2 = 90, all other joints 0. -/
def poseB : Pose := ⟨"B", [0, 90, 0, 0, 0, 0]⟩

/-- The scenario choreography: checkpoint A at t = 0 s, checkpoint B at
t = 2 s, no groove tempo. -/
def choreoAB : ChoreographyG :=
  ⟨[("A", poseA), ("B", poseB)], [⟨0, "A", 1⟩, ⟨2, "B", 1⟩], Option.none, 0⟩

/-! Verification.  Rational arithmetic is made kernel-evaluable for `decide`
by restoring the default reducibility of the library's arithmetic on `ℚ`
locally to this section. -/

section Verification

attribute [local semireducible] Rat.add Rat.sub Rat.mul Rat.inv Rat.ofScientific

theorem findFirst_lt_length (v : Nat) (l : List Nat) (i : Nat)
    (h : findFirst v l = some i) : i < l.length := by
  induction l generalizing i with
  | nil => simp [findFirst] at h
  | cons b bs ih =>
    by_cases hb : b = v
    · simp only [findFirst, if_pos hb, Option.some.injEq] at h
      subst h
      simp
    · simp only [findFirst, if_neg hb, Option.map_eq_some'] at h
      obtain ⟨j, hj, rfl⟩ := h
      have := ih j hj
      simp only [List.length_cons]
      omega

theorem findFirst_append_some (v : Nat) (l c : List Nat) (i : Nat)
    (h : findFirst v l = some i) : findFirst v (l ++ c) = some i := by
  induction l generalizing i with
  | nil => simp [findFirst] at h
  | cons b bs ih =>
    rw [List.cons_append]
    by_cases hb : b = v
    · simp only [findFirst, if_pos hb] at h ⊢
      exact h
    · simp only [findFirst, if_neg hb, Option.map_eq_some'] at h ⊢
      obtain ⟨j, hj, rfl⟩ := h
      exact ⟨j, ih j hj, rfl⟩

theorem findFirst_prefix (v : Nat) (p rest : List Nat) (hp : ∀ x ∈ p, x ≠ v) :
    findFirst v (p ++ v :: rest) = some p.length := by
  induction p with
  | nil => simp [findFirst]
  | cons b bs ih =>
    have hb : b ≠ v := hp b (by simp)
    rw [List.cons_append]
    simp only [findFirst, if_neg hb,
      ih (fun x hx => hp x (List.mem_cons_of_mem b hx)), Option.map_some',
      List.length_cons]

theorem extract_frame_length_lt (buf : List Nat) (om : Option Msg) (r : List Nat)
    (h : extract_frame buf = some (om, r)) : r.length < buf.length := by
  cases hf : findFirst FRAME_START buf with
  | none => simp only [extract_frame, hf] at h; exact absurd h (by simp)
  | some s =>
    simp only [extract_frame, hf] at h
    have hs := findFirst_lt_length _ _ _ hf
    cases hf2 : findFirst FRAME_END ((buf.drop s).drop 1) with
    | none => simp only [hf2] at h; exact absurd h (by simp)
    | some e1 =>
      simp only [hf2, Option.some.injEq, Prod.mk.injEq] at h
      have he := findFirst_lt_length _ _ _ hf2
      rw [← h.2]
      simp only [List.length_drop] at he ⊢
      omega

theorem extract_frame_append (buf c : List Nat) (om : Option Msg) (r : List Nat)
    (h : extract_frame buf = some (om, r)) :
    extract_frame (buf ++ c) = some (om, r ++ c) := by
  cases hf : findFirst FRAME_START buf with
  | none => simp only [extract_frame, hf] at h; exact absurd h (by simp)
  | some s =>
    have hs := findFirst_lt_length _ _ _ hf
    have hfc := findFirst_append_some _ _ c _ hf
    simp only [extract_frame, hf, hfc] at h ⊢
    have hdrop : (buf ++ c).drop s = buf.drop s ++ c := by
      rw [List.drop_append_eq_append_drop, Nat.sub_eq_zero_of_le (le_of_lt hs),
        List.drop_zero]
    rw [hdrop]
    have hlen1 : 1 ≤ (buf.drop s).length := by
      simp only [List.length_drop]
      omega
    have h1 : (buf.drop s ++ c).drop 1 = (buf.drop s).drop 1 ++ c := by
      rw [List.drop_append_eq_append_drop, Nat.sub_eq_zero_of_le hlen1,
        List.drop_zero]
    rw [h1]
    cases hf2 : findFirst FRAME_END ((buf.drop s).drop 1) with
    | none => simp only [hf2] at h; exact absurd h (by simp)
    | some e1 =>
      have hfc2 := findFirst_append_some _ _ c _ hf2
      simp only [hf2] at h
      simp only [hfc2]
      have he := findFirst_lt_length _ _ _ hf2
      simp only [List.length_drop] at he
      have he2 : e1 + 2 ≤ (buf.drop s).length := by
        simp only [List.length_drop]
        omega
      have htake : (buf.drop s ++ c).take (e1 + 2) = (buf.drop s).take (e1 + 2) := by
        rw [List.take_append_eq_append_take, Nat.sub_eq_zero_of_le he2,
          List.take_zero, List.append_nil]
      have hdrop2 : (buf.drop s ++ c).drop (e1 + 2) = (buf.drop s).drop (e1 + 2) ++ c := by
        rw [List.drop_append_eq_append_drop, Nat.sub_eq_zero_of_le he2,
          List.drop_zero]
      rw [htake, hdrop2]
      simp only [Option.some.injEq, Prod.mk.injEq] at h ⊢
      exact ⟨h.1, by rw [h.2]⟩

theorem scan_loop_fuel (f1 : Nat) : ∀ (f2 : Nat) (buf : List Nat),
    buf.length ≤ f1 → buf.length ≤ f2 → scan_loop f1 buf = scan_loop f2 buf := by
  induction f1 with
  | zero =>
    intro f2 buf h1 _
    have hb : buf = [] := List.length_eq_zero.mp (by omega)
    subst hb
    cases f2 with
    | zero => rfl
    | succ m => rfl
  | succ n ih =>
    intro f2 buf h1 h2
    cases f2 with
    | zero =>
      have hb : buf = [] := List.length_eq_zero.mp (by omega)
      subst hb
      rfl
    | succ m =>
      cases hx : extract_frame buf with
      | none => simp only [scan_loop, hx]
      | some p =>
        obtain ⟨om, r⟩ := p
        have hlt := extract_frame_length_lt _ _ _ hx
        simp only [scan_loop, hx]
        rw [ih m r (by omega) (by omega)]

theorem scan_all_stuck (buf : List Nat) (h : extract_frame buf = none) :
    scan_all buf = ([], buf) := by
  unfold scan_all
  cases hl : buf.length with
  | zero => rfl
  | succ n => simp only [scan_loop, h]

theorem scan_all_step (buf : List Nat) (om : Option Msg) (r : List Nat)
    (h : extract_frame buf = some (om, r)) :
    scan_all buf =
      ((match om with
        | some m => m :: (scan_all r).1
        | none => (scan_all r).1), (scan_all r).2) := by
  have hlt := extract_frame_length_lt _ _ _ h
  unfold scan_all
  obtain ⟨n, hn⟩ : ∃ n, buf.length = n + 1 := ⟨buf.length - 1, by omega⟩
  rw [hn]
  simp only [scan_loop, h]
  rw [scan_loop_fuel n r.length r (by omega) (le_refl _)]
  cases om <;> rfl

theorem scan_all_append (n : Nat) : ∀ (b c : List Nat), b.length ≤ n →
    scan_all (b ++ c) =
      ((scan_all b).1 ++ (scan_all ((scan_all b).2 ++ c)).1,
        (scan_all ((scan_all b).2 ++ c)).2) := by
  induction n with
  | zero =>
    intro b c hb
    have : b = [] := List.length_eq_zero.mp (by omega)
    subst this
    have h0 : scan_all [] = ([], []) := rfl
    rw [List.nil_append, h0]
    simp
  | succ n ih =>
    intro b c hb
    cases hx : extract_frame b with
    | none =>
      rw [scan_all_stuck b hx]
      simp
    | some p =>
      obtain ⟨om, r⟩ := p
      have hlt := extract_frame_length_lt _ _ _ hx
      have hx2 := extract_frame_append b c om r hx
      rw [scan_all_step _ _ _ hx, scan_all_step _ _ _ hx2]
      rw [ih r c (by omega)]
      cases om with
      | none => simp
      | some m => simp

theorem scan_all_snd_stuck (n : Nat) : ∀ buf : List Nat, buf.length ≤ n →
    extract_frame (scan_all buf).2 = none := by
  induction n with
  | zero =>
    intro buf hb
    have : buf = [] := List.length_eq_zero.mp (by omega)
    subst this
    rfl
  | succ n ih =>
    intro buf hb
    cases hx : extract_frame buf with
    | none => rw [scan_all_stuck buf hx]; exact hx
    | some p =>
      obtain ⟨om, r⟩ := p
      have hlt := extract_frame_length_lt _ _ _ hx
      rw [scan_all_step _ _ _ hx]
      exact ih r (by omega)

theorem foldl_feed_chunk (chunks : List (List Nat)) : ∀ (acc : List Msg) (buf : List Nat),
    extract_frame buf = none →
    chunks.foldl feed_chunk (acc, buf) =
      (acc ++ (scan_all (buf ++ chunks.flatten)).1,
        (scan_all (buf ++ chunks.flatten)).2) := by
  induction chunks with
  | nil =>
    intro acc buf hb
    simp only [List.foldl_nil, List.flatten_nil, List.append_nil]
    rw [scan_all_stuck _ hb]
    simp
  | cons c cs ih =>
    intro acc buf hb
    simp only [List.foldl_cons]
    rw [show feed_chunk (acc, buf) c =
      (acc ++ (scan_all (buf ++ c)).1, (scan_all (buf ++ c)).2) from rfl]
    rw [ih _ _ (scan_all_snd_stuck (buf ++ c).length _ (le_refl _))]
    rw [show (buf ++ (c :: cs).flatten) = (buf ++ c) ++ cs.flatten by
      simp [List.flatten_cons, List.append_assoc]]
    rw [scan_all_append ((buf ++ c).length) (buf ++ c) cs.flatten (le_refl _)]
    simp [List.append_assoc]

theorem process_chunks_eq (chunks : List (List Nat)) :
    process_chunks chunks = scan_all chunks.flatten := by
  unfold process_chunks
  rw [foldl_feed_chunk chunks [] [] rfl]
  simp

theorem type_byte_fields : ∀ len < 16, ∀ ext rem : Bool,
    ((((if ext then TYPE_EXTENDED else TYPE_STANDARD) |||
        (if rem then TYPE_REMOTE else 0)) ||| (len &&& 0x0F)) &&& 0x20 != 0) = ext ∧
    ((((if ext then TYPE_EXTENDED else TYPE_STANDARD) |||
        (if rem then TYPE_REMOTE else 0)) ||| (len &&& 0x0F)) &&& 0x10 != 0) = rem ∧
    ((((if ext then TYPE_EXTENDED else TYPE_STANDARD) |||
        (if rem then TYPE_REMOTE else 0)) ||| (len &&& 0x0F)) &&& 0x0F) = len := by
  decide

theorem getLast_getD_cons_append (x y d : Nat) (l : List Nat) :
    (x :: (l ++ [y])).getLast?.getD d = y := by
  induction l generalizing x with
  | nil => rfl
  | cons a t ih => rw [List.cons_append, List.getLast?_cons_cons]; exact ih a

theorem decode_encode_core (id : Nat) (data : List Nat) (ext rem : Bool)
    (hE : ext = true → id < 2 ^ 29) (hS : ext = false → id < 2 ^ 11)
    (hlen : data.length ≤ 8) :
    decode_frame (encode_frame ⟨id, data, ext, rem⟩) = some ⟨id, data, ext, rem⟩ := by
  obtain ⟨h20, h10, h0F⟩ := type_byte_fields data.length (by omega) ext rem
  cases ext with
  | false =>
    have hid : id < 2 ^ 11 := hS rfl
    simp only [encode_frame, pack16, if_false, Bool.false_eq_true, List.cons_append,
      List.nil_append, FRAME_START, FRAME_END, TYPE_STANDARD, TYPE_EXTENDED,
      TYPE_REMOTE] at h20 h10 h0F ⊢
    generalize htb : (((192 : Nat) ||| if rem = true then 16 else 0) |||
      data.length &&& 15) = tb at h20 h10 h0F ⊢
    unfold decode_frame
    rw [if_neg (by simp)]
    rw [if_neg (by simp [getLast_getD_cons_append, FRAME_START, FRAME_END])]
    rw [show ((170:Nat) :: tb :: id % 256 :: id / 256 % 256 :: (data ++ [85])).getD 1 0 = tb from rfl]
    rw [h20]
    simp only [Bool.false_eq_true, if_false]
    rw [show ((170:Nat) :: tb :: id % 256 :: id / 256 % 256 :: (data ++ [85])).drop 2 = id % 256 :: id / 256 % 256 :: (data ++ [85]) from rfl]
    rw [show ((170:Nat) :: tb :: id % 256 :: id / 256 % 256 :: (data ++ [85])).drop 4 = data ++ [85] from rfl]
    rw [show (id % 256 :: id / 256 % 256 :: (data ++ [85])).take 2 = [id % 256, id / 256 % 256] from rfl]
    rw [List.dropLast_concat, h0F, List.take_length, h10]
    simp only [unpack16, List.getD_cons_zero, List.getD_cons_succ, Option.some.injEq, Msg.mk.injEq]
    refine ⟨by omega, ?_, ?_, ?_⟩ <;> trivial
  | true =>
    have hid : id < 2 ^ 29 := hE rfl
    simp only [encode_frame, pack32, if_true, List.cons_append,
      List.nil_append, FRAME_START, FRAME_END, TYPE_STANDARD, TYPE_EXTENDED,
      TYPE_REMOTE] at h20 h10 h0F ⊢
    generalize htb : (((224 : Nat) ||| if rem = true then 16 else 0) |||
      data.length &&& 15) = tb at h20 h10 h0F ⊢
    unfold decode_frame
    rw [if_neg (by simp)]
    rw [if_neg (by simp [getLast_getD_cons_append, FRAME_START, FRAME_END])]
    rw [show ((170:Nat) :: tb :: id % 256 :: id / 256 % 256 :: id / 65536 % 256 :: id / 16777216 % 256 :: (data ++ [85])).getD 1 0 = tb from rfl]
    rw [h20]
    simp only [if_true]
    rw [if_neg (by simp)]
    rw [show ((170:Nat) :: tb :: id % 256 :: id / 256 % 256 :: id / 65536 % 256 :: id / 16777216 % 256 :: (data ++ [85])).drop 2 = id % 256 :: id / 256 % 256 :: id / 65536 % 256 :: id / 16777216 % 256 :: (data ++ [85]) from rfl]
    rw [show ((170:Nat) :: tb :: id % 256 :: id / 256 % 256 :: id / 65536 % 256 :: id / 16777216 % 256 :: (data ++ [85])).drop 6 = data ++ [85] from rfl]
    rw [show (id % 256 :: id / 256 % 256 :: id / 65536 % 256 :: id / 16777216 % 256 :: (data ++ [85])).take 4 = [id % 256, id / 256 % 256, id / 65536 % 256, id / 16777216 % 256] from rfl]
    rw [List.dropLast_concat, h0F, List.take_length, h10]
    simp only [unpack32, List.getD_cons_zero, List.getD_cons_succ, Option.some.injEq, Msg.mk.injEq]
    refine ⟨by omega, ?_, ?_, ?_⟩ <;> trivial



theorem extract_frame_framed (mid rest : List Nat) (hni : ∀ x ∈ mid, x ≠ FRAME_END) :
    extract_frame ((FRAME_START :: (mid ++ [FRAME_END])) ++ rest) =
      some (decode_frame (FRAME_START :: (mid ++ [FRAME_END])), rest) := by
  have h0 : findFirst FRAME_START ((FRAME_START :: (mid ++ [FRAME_END])) ++ rest) = some 0 := by
    simp [findFirst]
  have h1 : ((FRAME_START :: (mid ++ [FRAME_END])) ++ rest).drop 1 = mid ++ (FRAME_END :: rest) := by
    simp
  simp only [extract_frame, h0, List.drop_zero, h1,
    findFirst_prefix FRAME_END mid rest hni]
  have hlen : (FRAME_START :: (mid ++ [FRAME_END])).length = mid.length + 2 := by
    simp
  have htake : ((FRAME_START :: (mid ++ [FRAME_END])) ++ rest).take (mid.length + 2) =
      FRAME_START :: (mid ++ [FRAME_END]) := by
    rw [List.take_append_eq_append_take, hlen, Nat.sub_self, List.take_zero,
      List.append_nil, List.take_of_length_le (by rw [hlen])]
  have hdrop : ((FRAME_START :: (mid ++ [FRAME_END])) ++ rest).drop (mid.length + 2) = rest := by
    rw [List.drop_append_eq_append_drop, hlen, Nat.sub_self, List.drop_zero,
      List.drop_of_length_le (by rw [hlen])]
    simp
  rw [htake, hdrop]

theorem decode_encode_frame (m : Msg) (hv : ValidMsg m) :
    decode_frame (encode_frame m) = some m := by
  obtain ⟨id, data, ext, rem⟩ := m
  exact decode_encode_core id data ext rem hv.1 hv.2.1 hv.2.2.1

theorem extract_encoded (m : Msg) (rest : List Nat) (hv : ValidMsg m)
    (hni : ∀ x ∈ (encode_frame m).dropLast, x ≠ FRAME_END) :
    extract_frame (encode_frame m ++ rest) = some (some m, rest) := by
  have hshape : encode_frame m = FRAME_START ::
      (((((if m.is_extended_id then TYPE_EXTENDED else TYPE_STANDARD) |||
          (if m.is_remote_frame then TYPE_REMOTE else 0)) |||
        (m.data.length &&& 0x0F)) ::
        ((if m.is_extended_id then pack32 m.arbitration_id
          else pack16 m.arbitration_id) ++ m.data)) ++ [FRAME_END]) := by
    simp [encode_frame, List.append_assoc]
  rw [hshape] at hni ⊢
  have hdl : (FRAME_START ::
      (((((if m.is_extended_id then TYPE_EXTENDED else TYPE_STANDARD) |||
          (if m.is_remote_frame then TYPE_REMOTE else 0)) |||
        (m.data.length &&& 0x0F)) ::
        ((if m.is_extended_id then pack32 m.arbitration_id
          else pack16 m.arbitration_id) ++ m.data)) ++ [FRAME_END])).dropLast =
      FRAME_START ::
      ((((if m.is_extended_id then TYPE_EXTENDED else TYPE_STANDARD) |||
          (if m.is_remote_frame then TYPE_REMOTE else 0)) |||
        (m.data.length &&& 0x0F)) ::
        ((if m.is_extended_id then pack32 m.arbitration_id
          else pack16 m.arbitration_id) ++ m.data)) := by
    rw [show (FRAME_START ::
      (((((if m.is_extended_id then TYPE_EXTENDED else TYPE_STANDARD) |||
          (if m.is_remote_frame then TYPE_REMOTE else 0)) |||
        (m.data.length &&& 0x0F)) ::
        ((if m.is_extended_id then pack32 m.arbitration_id
          else pack16 m.arbitration_id) ++ m.data)) ++ [FRAME_END])) =
      ((FRAME_START ::
      ((((if m.is_extended_id then TYPE_EXTENDED else TYPE_STANDARD) |||
          (if m.is_remote_frame then TYPE_REMOTE else 0)) |||
        (m.data.length &&& 0x0F)) ::
        ((if m.is_extended_id then pack32 m.arbitration_id
          else pack16 m.arbitration_id) ++ m.data))) ++ [FRAME_END]) from by simp]
    exact List.dropLast_concat ..
  rw [hdl] at hni
  rw [extract_frame_framed _ rest (fun x hx => hni x (List.mem_cons_of_mem _ hx))]
  rw [← hshape, decode_encode_frame m hv]

theorem scan_encoded (frames : List Msg)
    (h : ∀ m ∈ frames, ValidMsg m ∧ ∀ x ∈ (encode_frame m).dropLast, x ≠ FRAME_END) :
    scan_all (frames.map encode_frame).flatten = (frames, []) := by
  induction frames with
  | nil => rfl
  | cons m fs ih =>
    have hm := h m (List.mem_cons_self m fs)
    rw [List.map_cons, List.flatten_cons]
    rw [scan_all_step _ _ _ (extract_encoded m _ hm.1 hm.2)]
    rw [ih (fun x hx => h x (List.mem_cons_of_mem m hx))]


/-- C1: for every CAN frame whose arbitration id fits its width (11-bit
standard, 29-bit extended) and whose data has at most 8 byte-valued entries,
decoding the serial bytes produced by encoding the frame yields exactly the
same message: same arbitration id, same data bytes, same extended (and
remote) flag, for both id widths. -/
theorem C1_encode_decode_roundtrip (m : Msg) (hv : ValidMsg m) :
    decode_frame (encode_frame m) = some m :=
  decode_encode_frame m hv

theorem C1_encode_decode_roundtrip_witness :
    ValidMsg ⟨0x123, [17, 34], false, false⟩ ∧
    ValidMsg ⟨0x12345, [1, 2, 3, 4, 5, 6, 7, 8], true, false⟩ ∧
    decode_frame (encode_frame ⟨0x123, [17, 34], false, false⟩) =
      some ⟨0x123, [17, 34], false, false⟩ ∧
    decode_frame (encode_frame ⟨0x12345, [1, 2, 3, 4, 5, 6, 7, 8], true, false⟩) =
      some ⟨0x12345, [1, 2, 3, 4, 5, 6, 7, 8], true, false⟩ :=
  ⟨by decide, by decide, C1_encode_decode_roundtrip _ (by decide),
    C1_encode_decode_roundtrip _ (by decide)⟩

/-- C6: the frame decoder returns no frame (`none`) on every short or
malformed byte slice: fewer than 4 bytes, a wrong start or end marker, or
fewer bytes than the declared (extended) id width needs.  The decoder is a
total function of the byte slice, so it cannot fail on any truncated input. -/
theorem C6_decode_malformed_none (b : List Nat)
    (h : b.length < 4 ∨ b.headD 0 ≠ FRAME_START ∨ b.getLastD 0 ≠ FRAME_END ∨
      ((b.getD 1 0 &&& 0x20 != 0) = true ∧ b.length < 7)) :
    decode_frame b = none := by
  unfold decode_frame
  rcases h with h | h | h | ⟨h1, h2⟩
  · rw [if_pos h]
  · by_cases h4 : b.length < 4
    · rw [if_pos h4]
    · rw [if_neg h4, if_pos (Or.inl h)]
  · by_cases h4 : b.length < 4
    · rw [if_pos h4]
    · rw [if_neg h4, if_pos (Or.inr h)]
  · by_cases h4 : b.length < 4
    · rw [if_pos h4]
    · rw [if_neg h4]
      by_cases h5 : b.headD 0 ≠ FRAME_START ∨ b.getLastD 0 ≠ FRAME_END
      · rw [if_pos h5]
      · rw [if_neg h5, if_pos h1, if_pos h2]

theorem C6_decode_malformed_none_witness :
    (([0xAA, 0xE0, 0x01, 0x55] : List Nat).length < 4 ∨
      ([0xAA, 0xE0, 0x01, 0x55] : List Nat).headD 0 ≠ FRAME_START ∨
      ([0xAA, 0xE0, 0x01, 0x55] : List Nat).getLastD 0 ≠ FRAME_END ∨
      ((([0xAA, 0xE0, 0x01, 0x55] : List Nat).getD 1 0 &&& 0x20 != 0) = true ∧
        ([0xAA, 0xE0, 0x01, 0x55] : List Nat).length < 7)) ∧
    decode_frame [0xAA, 0xE0, 0x01, 0x55] = none :=
  ⟨by decide, C6_decode_malformed_none _ (by decide)⟩

/-- C3 counterexample: the claim fails as stated.  The standard 11-bit id
`0x155` is valid for a CAN frame, but its little-endian low byte equals the
end marker `0x55`, so the scanner cuts a false frame boundary inside the
encoding: feeding the complete encoded bytes of this one frame yields zero
decoded messages, not one. -/
theorem C3_false_boundary_counterexample :
    ValidMsg ⟨0x155, [], false, false⟩ ∧
    (process_chunks [encode_frame ⟨0x155, [], false, false⟩]).1 = [] := by
  constructor
  · decide
  · decide

/-- C3 (amended): for every sequence of N validly encoded frames none of
whose encoded bytes other than the final end marker equals the end-marker
value `0x55` (the spec's accepted protocol limitation: a literal end marker
inside the frame body causes a false frame boundary), feeding the
concatenated serial bytes to the transport's scanner split at arbitrary
byte boundaries across multiple reads yields exactly the N decoded
messages, in order. -/
theorem C3_chunked_stream_in_order (frames : List Msg) (chunks : List (List Nat))
    (hv : ∀ m ∈ frames, ValidMsg m)
    (hni : ∀ m ∈ frames, ∀ x ∈ (encode_frame m).dropLast, x ≠ FRAME_END)
    (hsplit : chunks.flatten = (frames.map encode_frame).flatten) :
    (process_chunks chunks).1 = frames := by
  rw [process_chunks_eq, hsplit,
    scan_encoded frames (fun m hm => ⟨hv m hm, hni m hm⟩)]

theorem C3_chunked_stream_in_order_witness :
    (∀ m ∈ [Msg.mk 0x123 [1, 2] false false, Msg.mk 0x2A5 [9] false false], ValidMsg m) ∧
    (∀ m ∈ [Msg.mk 0x123 [1, 2] false false, Msg.mk 0x2A5 [9] false false],
      ∀ x ∈ (encode_frame m).dropLast, x ≠ FRAME_END) ∧
    ([[0xAA, 0xC2, 0x23], [0x01, 0x01, 0x02], [0x55, 0xAA, 0xC1, 0xA5, 0x02, 0x09, 0x55]] :
        List (List Nat)).flatten =
      ([Msg.mk 0x123 [1, 2] false false, Msg.mk 0x2A5 [9] false false].map encode_frame).flatten ∧
    (process_chunks
        [[0xAA, 0xC2, 0x23], [0x01, 0x01, 0x02], [0x55, 0xAA, 0xC1, 0xA5, 0x02, 0x09, 0x55]]).1 =
      [Msg.mk 0x123 [1, 2] false false, Msg.mk 0x2A5 [9] false false] :=
  ⟨by decide, by decide, by decide,
    C3_chunked_stream_in_order _ _ (by decide) (by decide) (by decide)⟩

theorem apply_easing_zero (easing : EasingType) : apply_easing 0 easing = 0 := by
  cases easing <;> norm_num [apply_easing]

theorem apply_easing_one (easing : EasingType) : apply_easing 1 easing = 1 := by
  cases easing <;> norm_num [apply_easing]

theorem zipWith_lerp_zero (a b : List ℚ) (h : a.length ≤ b.length) :
    List.zipWith (fun s e => linear_interpolate s e 0) a b = a := by
  induction a generalizing b with
  | nil => rfl
  | cons x xs ih =>
    cases b with
    | nil => simp at h
    | cons y ys =>
      rw [List.zipWith_cons_cons, ih ys (by simpa using h)]
      congr 1
      unfold linear_interpolate
      ring

theorem zipWith_lerp_one (a b : List ℚ) (h : b.length ≤ a.length) :
    List.zipWith (fun s e => linear_interpolate s e 1) a b = b := by
  induction a generalizing b with
  | nil =>
    cases b with
    | nil => rfl
    | cons y ys => simp at h
  | cons x xs ih =>
    cases b with
    | nil => rfl
    | cons y ys =>
      rw [List.zipWith_cons_cons, ih ys (by simpa using h)]
      congr 1
      unfold linear_interpolate
      ring

theorem cubic_at_zero (p0 p1 p2 p3 : ℚ) : cubic_spline_segment p0 p1 p2 p3 0 = p1 := by
  unfold cubic_spline_segment
  ring

theorem cubic_at_one (p0 p1 p2 p3 : ℚ) : cubic_spline_segment p0 p1 p2 p3 1 = p2 := by
  unfold cubic_spline_segment
  ring

theorem range_map_getD (l : List ℚ) : (List.range l.length).map (fun j => l.getD j 0) = l := by
  induction l with
  | nil => rfl
  | cons x xs ih =>
    rw [List.length_cons, List.range_succ_eq_map, List.map_cons, List.getD_cons_zero,
      List.map_map]
    rw [show ((fun j => (x :: xs).getD j 0) ∘ Nat.succ) = fun j => xs.getD j 0 from
      funext fun j => List.getD_cons_succ ..]
    rw [ih]

theorem getLastD_eq_getD (l : List ℚ) (hne : 0 < l.length) (d : ℚ) :
    l.getLastD d = l.getD (l.length - 1) 0 := by
  rw [List.getLastD_eq_getLast?, List.getLast?_eq_getElem?,
    List.getElem?_eq_getElem (by omega), List.getD_eq_getElem _ _ (by omega)]
  rfl

theorem pairwise_getD_lt (l : List ℚ) (hp : l.Pairwise (· < ·)) (i j : Nat)
    (hij : i < j) (hj : j < l.length) : l.getD i 0 < l.getD j 0 := by
  rw [List.getD_eq_getElem l 0 (by omega), List.getD_eq_getElem l 0 hj]
  exact List.pairwise_iff_get.mp hp ⟨i, by omega⟩ ⟨j, hj⟩ hij

theorem seg_scan_at_point (ts : List ℚ) (hp : ts.Pairwise (· < ·)) :
    ∀ (k i : Nat), i + 1 < ts.length →
      seg_scan (ts.getD i 0) ts k = some (k + i, 0) := by
  induction ts with
  | nil => intro k i h; simp at h
  | cons t0 rest ih =>
    intro k i h
    cases rest with
    | nil => simp at h
    | cons t1 rest2 =>
      cases i with
      | zero =>
        have h01 : t0 < t1 := (List.pairwise_cons.mp hp).1 t1 (by simp)
        simp only [List.getD_cons_zero, seg_scan]
        rw [if_pos ⟨le_refl t0, h01⟩]
        simp [sub_self]
      | succ j =>
        have hj : j < (t1 :: rest2).length := by
          simp only [List.length_cons] at h ⊢
          omega
        have hmem : (t1 :: rest2).getD j 0 ∈ t1 :: rest2 := by
          rw [List.getD_eq_getElem _ _ hj]
          exact List.getElem_mem hj
        have htail : (t1 :: rest2).Pairwise (· < ·) := (List.pairwise_cons.mp hp).2
        have ht1le : t1 ≤ (t1 :: rest2).getD j 0 := by
          cases j with
          | zero => simp
          | succ j2 =>
            rw [List.getD_cons_succ]
            have hj2 : j2 < rest2.length := by
              simp only [List.length_cons] at hj
              omega
            have : t1 < rest2.getD j2 0 := by
              have hm2 : rest2.getD j2 0 ∈ rest2 := by
                rw [List.getD_eq_getElem _ _ hj2]
                exact List.getElem_mem hj2
              exact (List.pairwise_cons.mp htail).1 _ hm2
            linarith
        simp only [List.getD_cons_succ, seg_scan]
        rw [if_neg (by
          rintro ⟨-, hlt⟩
          exact absurd (lt_of_le_of_lt ht1le hlt) (lt_irrefl t1))]
        rw [ih htail (k + 1) j (by simp only [List.length_cons] at h ⊢; omega)]
        rw [show k + 1 + j = k + (j + 1) from by omega]

theorem find_segment_first (ts : List ℚ) (t : ℚ) (h : t ≤ ts.headD 0) :
    find_segment ts t = (0, 0) := by
  unfold find_segment
  rw [if_pos h]

theorem find_segment_last (ts : List ℚ) (hp : ts.Pairwise (· < ·))
    (h2 : 2 ≤ ts.length) :
    find_segment ts (ts.getD (ts.length - 1) 0) = (ts.length - 2, 1) := by
  obtain ⟨t0, rest, rfl⟩ : ∃ t0 rest, ts = t0 :: rest := by
    cases ts with
    | nil => simp at h2
    | cons a l => exact ⟨a, l, rfl⟩
  unfold find_segment
  rw [if_neg (by
    simp only [List.headD_cons]
    have := pairwise_getD_lt _ hp 0 ((t0 :: rest).length - 1)
      (by simp only [List.length_cons] at h2 ⊢; omega) (by simp)
    simp only [List.getD_cons_zero] at this
    linarith)]
  rw [if_pos (le_of_eq (getLastD_eq_getD _ (by simp) 0))]

theorem find_segment_mid (ts : List ℚ) (hp : ts.Pairwise (· < ·)) (i : Nat)
    (h0 : 0 < i) (hi : i + 1 < ts.length) :
    find_segment ts (ts.getD i 0) = (i, 0) := by
  obtain ⟨t0, rest, rfl⟩ : ∃ t0 rest, ts = t0 :: rest := by
    cases ts with
    | nil => simp at hi
    | cons a l => exact ⟨a, l, rfl⟩
  unfold find_segment
  rw [if_neg (by
    simp only [List.headD_cons]
    have := pairwise_getD_lt _ hp 0 i h0 (by omega)
    simp only [List.getD_cons_zero] at this
    linarith)]
  rw [if_neg (by
    rw [getLastD_eq_getD _ (by simp) 0]
    have := pairwise_getD_lt _ hp i ((t0 :: rest).length - 1) (by omega)
      (by simp)
    linarith)]
  rw [seg_scan_at_point _ hp 0 i hi]
  simp

theorem headD_eq_getD_zero (l : List ℚ) (h : 0 < l.length) : l.headD 0 = l.getD 0 0 := by
  cases l with
  | nil => simp at h
  | cons a t => rfl

theorem linear_at_point (times : List ℚ) (positions : List (List ℚ)) (nj : Nat)
    (easing : EasingType) (i : Nat)
    (hp : times.Pairwise (· < ·)) (h2 : 2 ≤ times.length)
    (hlen : positions.length = times.length)
    (hrows : ∀ p ∈ positions, p.length = nj) (hi : i < times.length) :
    LinearInterpolator.interpolate ⟨times, positions⟩ (times.getD i 0) easing =
      positions.getD i [] := by
  have hrow : ∀ j, j < positions.length → (positions.getD j []).length = nj := by
    intro j hj
    rw [List.getD_eq_getElem _ _ hj]
    exact hrows _ (List.getElem_mem hj)
  simp only [LinearInterpolator.interpolate]
  rcases Nat.lt_or_ge i 1 with h0 | h0
  · have hz : i = 0 := by omega
    subst hz
    rw [find_segment_first _ _ (le_of_eq (headD_eq_getD_zero times (by omega)).symm)]
    simp only [apply_easing_zero]
    rw [zipWith_lerp_zero _ _ (by
      rw [hrow 0 (by omega), hrow (min (0 + 1) (times.length - 1)) (by omega)])]
  · rcases Nat.lt_or_ge (i + 1) times.length with hmid | hlast
    · rw [find_segment_mid _ hp i (by omega) hmid]
      simp only [apply_easing_zero]
      rw [zipWith_lerp_zero _ _ (by
        rw [hrow i (by omega), hrow (min (i + 1) (times.length - 1)) (by omega)])]
    · have hl : i = times.length - 1 := by omega
      subst hl
      rw [find_segment_last _ hp h2]
      simp only [apply_easing_one]
      rw [show min (times.length - 2 + 1) (times.length - 1) = times.length - 1 from by
        omega]
      rw [zipWith_lerp_one _ _ (by
        rw [hrow (times.length - 2) (by omega), hrow (times.length - 1) (by omega)])]

theorem cubic_at_point (times : List ℚ) (positions : List (List ℚ)) (nj : Nat)
    (easing : EasingType) (i : Nat)
    (hp : times.Pairwise (· < ·)) (h2 : 2 ≤ times.length)
    (hlen : positions.length = times.length)
    (hrows : ∀ p ∈ positions, p.length = nj) (hi : i < times.length) :
    CubicSplineInterpolator.interpolate ⟨times, positions⟩ (times.getD i 0) easing =
      positions.getD i [] := by
  have hrow : ∀ j, j < positions.length → (positions.getD j []).length = nj := by
    intro j hj
    rw [List.getD_eq_getElem _ _ hj]
    exact hrows _ (List.getElem_mem hj)
  have hheadnj : (positions.headD []).length = nj := by
    rw [show positions.headD [] = positions.getD 0 [] from by
      cases positions with
      | nil => simp at hlen h2; omega
      | cons a t => rfl]
    exact hrow 0 (by omega)
  have hhead : ∀ j, j < positions.length →
      (positions.headD []).length = (positions.getD j []).length := by
    intro j hj
    rw [hheadnj, hrow j hj]
  simp only [CubicSplineInterpolator.interpolate]
  rcases Nat.lt_or_ge i 1 with h0 | h0
  · have hz : i = 0 := by omega
    subst hz
    rw [find_segment_first _ _ (le_of_eq (headD_eq_getD_zero times (by omega)).symm)]
    simp only [apply_easing_zero, cubic_at_zero]
    rw [hhead 0 (by omega)]
    exact range_map_getD _
  · rcases Nat.lt_or_ge (i + 1) times.length with hmid | hlast
    · rw [find_segment_mid _ hp i (by omega) hmid]
      simp only [apply_easing_zero, cubic_at_zero]
      rw [hhead i (by omega)]
      exact range_map_getD _
    · have hl : i = times.length - 1 := by omega
      subst hl
      rw [find_segment_last _ hp h2]
      simp only [apply_easing_one, cubic_at_one]
      rw [show min (times.length - 1) (times.length - 2 + 1) = times.length - 1 from by
        omega]
      rw [hhead (times.length - 1) (by omega)]
      exact range_map_getD _

/-- C4: for every checkpoint list with at least two strictly increasing
times and uniform-width position rows, both interpolators (linear and cubic
Catmull-Rom) evaluated at each original checkpoint time return exactly that
checkpoint's joint angles, for every easing profile: at a checkpoint time the
local segment parameter is 0 or 1, easing fixes 0 and 1, the Catmull-Rom
basis reduces to the inner control point, and the boundary segments are
clamped by repeating the nearest endpoint row. -/
theorem C4_interpolation_exact_at_checkpoints (times : List ℚ)
    (positions : List (List ℚ)) (nj : Nat) (easing : EasingType) (i : Nat)
    (hp : times.Pairwise (· < ·)) (h2 : 2 ≤ times.length)
    (hlen : positions.length = times.length)
    (hrows : ∀ p ∈ positions, p.length = nj) (hi : i < times.length) :
    LinearInterpolator.interpolate ⟨times, positions⟩ (times.getD i 0) easing =
      positions.getD i [] ∧
    CubicSplineInterpolator.interpolate ⟨times, positions⟩ (times.getD i 0) easing =
      positions.getD i [] :=
  ⟨linear_at_point times positions nj easing i hp h2 hlen hrows hi,
    cubic_at_point times positions nj easing i hp h2 hlen hrows hi⟩

theorem C4_interpolation_exact_at_checkpoints_witness :
    ([(0 : ℚ), 1, 3].Pairwise (· < ·) ∧ 2 ≤ ([(0 : ℚ), 1, 3] : List ℚ).length ∧
      ([[(1 : ℚ), 2], [3, 4], [5, 6]] : List (List ℚ)).length = ([(0 : ℚ), 1, 3] : List ℚ).length ∧
      (∀ p ∈ ([[(1 : ℚ), 2], [3, 4], [5, 6]] : List (List ℚ)), p.length = 2) ∧
      (1 : Nat) < ([(0 : ℚ), 1, 3] : List ℚ).length) ∧
    LinearInterpolator.interpolate ⟨[0, 1, 3], [[1, 2], [3, 4], [5, 6]]⟩ 1
        EasingType.ease_in_out = [3, 4] ∧
    CubicSplineInterpolator.interpolate ⟨[0, 1, 3], [[1, 2], [3, 4], [5, 6]]⟩ 1
        EasingType.ease_in_out = [3, 4] := by
  refine ⟨⟨?_, ?_, ?_, ?_, ?_⟩, ?_⟩
  · exact List.Pairwise.cons (by intro b hb; fin_cases hb <;> norm_num)
      (List.Pairwise.cons (by intro b hb; fin_cases hb <;> norm_num)
        (List.pairwise_singleton _ _))
  · decide
  · decide
  · decide
  · decide
  · have h := C4_interpolation_exact_at_checkpoints [0, 1, 3]
      [[1, 2], [3, 4], [5, 6]] 2 EasingType.ease_in_out 1
      (by constructor
          · intro b hb
            fin_cases hb <;> norm_num
          · constructor
            · intro b hb
              fin_cases hb <;> norm_num
            · exact List.pairwise_singleton _ _)
      (by decide) (by decide) (by decide) (by decide)
    simpa using h


theorem C9_easing_fixes_endpoints_and_range (easing : EasingType) (t : ℚ)
    (h0 : 0 ≤ t) (h1 : t ≤ 1) :
    apply_easing 0 easing = 0 ∧ apply_easing 1 easing = 1 ∧
    0 ≤ apply_easing t easing ∧ apply_easing t easing ≤ 1 ∧
    ∀ start stop : List ℚ,
      interpolate_joints start stop 0 easing =
        interpolate_joints start stop 0 EasingType.none ∧
      interpolate_joints start stop 1 easing =
        interpolate_joints start stop 1 EasingType.none := by
  refine ⟨apply_easing_zero easing, apply_easing_one easing, ?_, ?_, ?_⟩
  · cases easing with
    | none => exact h0
    | ease_in =>
      have : 0 ≤ t * t * t := mul_nonneg (mul_nonneg h0 h0) h0
      simpa [apply_easing] using this
    | ease_out =>
      simp only [apply_easing]
      nlinarith [mul_nonneg (mul_nonneg (sub_nonneg.mpr h1) (sub_nonneg.mpr h1))
        (sub_nonneg.mpr h1), sq_nonneg (1 - t)]
    | ease_in_out =>
      simp only [apply_easing]
      split_ifs with ht
      · nlinarith [mul_nonneg (mul_nonneg h0 h0) h0]
      · nlinarith [mul_nonneg (mul_nonneg (sub_nonneg.mpr h1) (sub_nonneg.mpr h1))
          (sub_nonneg.mpr h1)]
  · cases easing with
    | none => exact h1
    | ease_in =>
      simp only [apply_easing]
      nlinarith
    | ease_out =>
      simp only [apply_easing]
      nlinarith [mul_nonneg (mul_nonneg (sub_nonneg.mpr h1) (sub_nonneg.mpr h1))
        (sub_nonneg.mpr h1)]
    | ease_in_out =>
      simp only [apply_easing]
      split_ifs with ht
      · nlinarith [mul_nonneg h0 h0, sq_nonneg t]
      · nlinarith [mul_nonneg (mul_nonneg (sub_nonneg.mpr h1) (sub_nonneg.mpr h1))
          (sub_nonneg.mpr h1)]
  · intro start stop
    constructor
    · unfold interpolate_joints
      rw [apply_easing_zero, apply_easing_zero]
    · unfold interpolate_joints
      rw [apply_easing_one, apply_easing_one]

theorem C9_easing_fixes_endpoints_and_range_witness :
    ((0 : ℚ) ≤ 1/3 ∧ (1/3 : ℚ) ≤ 1) ∧
    (apply_easing 0 EasingType.ease_in_out = 0 ∧
      apply_easing 1 EasingType.ease_in_out = 1 ∧
      0 ≤ apply_easing (1/3) EasingType.ease_in_out ∧
      apply_easing (1/3) EasingType.ease_in_out ≤ 1 ∧
      ∀ start stop : List ℚ,
        interpolate_joints start stop 0 EasingType.ease_in_out =
          interpolate_joints start stop 0 EasingType.none ∧
        interpolate_joints start stop 1 EasingType.ease_in_out =
          interpolate_joints start stop 1 EasingType.none) :=
  ⟨⟨by norm_num, by norm_num⟩,
    C9_easing_fixes_endpoints_and_range EasingType.ease_in_out (1/3)
      (by norm_num) (by norm_num)⟩


theorem apply_groove_null (s s' : ℚ → ℚ) (joints : List ℚ) (t : ℚ)
    (cfg : GrooveConfig) (scale : ℚ) (hbpm : cfg.bpm ≤ 0) :
    apply_groove_to_joints s joints t cfg scale =
      apply_groove_to_joints s' joints t cfg scale := by
  unfold apply_groove_to_joints compute_groove_offset
  congr 1
  funext j joint_name
  rw [if_pos (Or.inr hbpm), if_pos (Or.inr hbpm)]

theorem resample_loop_sin_irrel (s s' : ℚ → ℚ) (kind : String) (ip : InterpData)
    (easing : EasingType) (groove : GrooveConfig) (cps : List CheckpointG)
    (interval_s end_time : ℚ) (hbpm : groove.bpm ≤ 0) :
    ∀ (fuel : Nat) (t : ℚ),
      resample_loop s kind ip easing groove cps interval_s end_time fuel t =
        resample_loop s' kind ip easing groove cps interval_s end_time fuel t := by
  intro fuel
  induction fuel with
  | zero => intro t; rfl
  | succ n ih =>
    intro t
    simp only [resample_loop]
    by_cases ht : t ≤ end_time
    · rw [if_pos ht, if_pos ht, apply_groove_null s s' _ _ _ _ hbpm, ih]
    · rw [if_neg ht, if_neg ht]

theorem append_final_sample_sin_irrel (s s' : ℚ → ℚ) (kind : String)
    (ip : InterpData) (easing : EasingType) (groove : GrooveConfig)
    (cps : List CheckpointG) (end_time : ℚ) (wps : List Waypoint)
    (hbpm : groove.bpm ≤ 0) :
    append_final_sample s kind ip easing groove cps end_time wps =
      append_final_sample s' kind ip easing groove cps end_time wps := by
  unfold append_final_sample
  cases wps.getLast? with
  | none => rfl
  | some last =>
    dsimp only
    by_cases h : (0.001 : ℚ) < |last.time_s - end_time|
    · rw [if_pos h, if_pos h, apply_groove_null s s' _ _ _ _ hbpm]
    · rw [if_neg h, if_neg h]

theorem compile_trajectory_sin_irrel (s s' : ℚ → ℚ) (ch : ChoreographyG)
    (iv : ℤ) (kind : String) (easing : EasingType)
    (hbpm : ch.bpm = Option.none) :
    compile_trajectory s ch iv kind easing =
      compile_trajectory s' ch iv kind easing := by
  unfold compile_trajectory
  rw [hbpm]
  have hg : (create_groove_config Option.none ch.groove_phase 1).bpm ≤ 0 := by
    unfold create_groove_config
    exact le_refl 0
  by_cases hcp : ch.checkpoints.isEmpty
  · rw [if_pos hcp, if_pos hcp]
  · rw [if_neg hcp, if_neg hcp]
    by_cases hk : kind = "none"
    · rw [if_pos hk, if_pos hk]
      congr 1
      exact List.map_congr_left fun cp _ => by
        rw [apply_groove_null s s' _ _ _ _ hg]
    · rw [if_neg hk, if_neg hk]
      dsimp only
      congr 1
      rw [resample_loop_sin_irrel s s' kind _ easing _ ch.checkpoints _ _ hg,
        append_final_sample_sin_irrel s s' kind _ easing _ ch.checkpoints _ _ hg]

/-- C2: compiling the two-checkpoint choreography (pose A all joints 0 at
t = 0, pose B with J2 = 90 at t = 2) with linear interpolation at a 100 ms
resample interval yields exactly 21 waypoints, and the waypoint of index 10
sits at t = 1.0 s with J2 = 45 (exact over `ℚ`); this holds for every sine
implementation `s` since no groove tempo is set. -/
theorem C2_two_checkpoint_linear_scenario (s : ℚ → ℚ) :
    (compile_trajectory s choreoAB 100 "linear" EasingType.none).waypoints.length = 21 ∧
    (compile_trajectory s choreoAB 100 "linear" EasingType.none).waypoints.getD 10
        (Waypoint.mk 0 []) = Waypoint.mk 1 [0, 45, 0, 0, 0, 0] := by
  rw [compile_trajectory_sin_irrel s (fun _ => 0) choreoAB 100 "linear"
    EasingType.none rfl]
  constructor
  · decide
  · decide


theorem head_waypoints_mem (state : List (String × List Waypoint))
    (p : String × Waypoint) (h : p ∈ head_waypoints state) :
    ∃ ws, (p.1, ws) ∈ state ∧ ws.head? = some p.2 := by
  unfold head_waypoints at h
  rw [List.mem_filterMap] at h
  obtain ⟨lw, hlw, hf⟩ := h
  rw [Option.map_eq_some'] at hf
  obtain ⟨w, hw, he⟩ := hf
  refine ⟨lw.2, ?_, ?_⟩
  · rw [show (p.1, lw.2) = lw from by rw [← he]]
    exact hlw
  · rw [hw, ← he]

theorem list_min_q_le (x : ℚ) (xs : List ℚ) :
    list_min_q x xs ≤ x ∧ ∀ y ∈ xs, list_min_q x xs ≤ y := by
  unfold list_min_q
  induction xs generalizing x with
  | nil => exact ⟨le_refl x, by simp⟩
  | cons z zs ih =>
    rw [List.foldl_cons]
    refine ⟨le_trans (ih (min x z)).1 (min_le_left x z), ?_⟩
    intro y hy
    rcases List.mem_cons.mp hy with rfl | hy2
    · exact le_trans (ih (min x y)).1 (min_le_right x y)
    · exact (ih (min x z)).2 y hy2

theorem lt_list_min_q (c x : ℚ) (xs : List ℚ) (hx : c < x)
    (hxs : ∀ y ∈ xs, c < y) : c < list_min_q x xs := by
  unfold list_min_q
  induction xs generalizing x with
  | nil => exact hx
  | cons z zs ih =>
    rw [List.foldl_cons]
    exact ih (min x z) (lt_min hx (hxs z (by simp)))
      (fun y hy => hxs y (List.mem_cons_of_mem z hy))

theorem consume_round_sorted (state : List (String × List Waypoint)) (next : ℚ)
    (hsort : ∀ lw ∈ state, (lw.2.map Waypoint.time_s).Pairwise (· < ·)) :
    ∀ lw ∈ consume_round state next,
      (lw.2.map Waypoint.time_s).Pairwise (· < ·) := by
  intro lw' hlw'
  unfold consume_round at hlw'
  rw [List.mem_map] at hlw'
  obtain ⟨lw, hlw, he⟩ := hlw'
  subst he
  cases hws : lw.2 with
  | nil =>
    dsimp only
    rw [hws]
    simp
  | cons w rest =>
    have hs2 : (List.map Waypoint.time_s (w :: rest)).Pairwise (· < ·) := by
      rw [← hws]
      exact hsort lw hlw
    dsimp only
    by_cases hc : |w.time_s - next| < 0.001
    · rw [if_pos hc]
      dsimp only
      rw [List.map_cons] at hs2
      exact (List.pairwise_cons.mp hs2).2
    · rw [if_neg hc]
      rw [hws]
      exact hs2

theorem consume_round_heads_gt (state : List (String × List Waypoint)) (next : ℚ)
    (hsort : ∀ lw ∈ state, (lw.2.map Waypoint.time_s).Pairwise (· < ·))
    (hge : ∀ p ∈ head_waypoints state, next ≤ p.2.time_s) :
    ∀ p ∈ head_waypoints (consume_round state next), next < p.2.time_s := by
  intro p hp
  unfold head_waypoints at hp
  rw [List.mem_filterMap] at hp
  obtain ⟨lw', hlw', hf⟩ := hp
  rw [Option.map_eq_some'] at hf
  obtain ⟨w', hw', he'⟩ := hf
  unfold consume_round at hlw'
  rw [List.mem_map] at hlw'
  obtain ⟨lw, hlw, he⟩ := hlw'
  have hs := hsort lw hlw
  cases hws : lw.2 with
  | nil =>
    rw [hws] at he
    dsimp only at he
    rw [← he, hws] at hw'
    simp at hw'
  | cons w rest =>
    rw [hws] at he
    dsimp only at he
    have hhead : (lw.1, w) ∈ head_waypoints state := by
      unfold head_waypoints
      rw [List.mem_filterMap]
      exact ⟨lw, hlw, by rw [hws]; rfl⟩
    have hwnext : next ≤ w.time_s := hge (lw.1, w) hhead
    subst he'
    by_cases hc : |w.time_s - next| < 0.001
    · rw [if_pos hc] at he
      rw [← he] at hw'
      dsimp only at hw'
      cases hrest : rest with
      | nil => rw [hrest] at hw'; simp at hw'
      | cons w2 rest2 =>
        rw [hrest] at hw'
        simp only [List.head?_cons, Option.some.injEq] at hw'
        have hlt : w.time_s < w2.time_s := by
          rw [hws, hrest, List.map_cons, List.map_cons] at hs
          exact (List.pairwise_cons.mp hs).1 w2.time_s (by simp)
        dsimp only
        rw [← hw']
        linarith
    · rw [if_neg hc] at he
      rw [← he, hws] at hw'
      simp only [List.head?_cons, Option.some.injEq] at hw'
      dsimp only
      rw [← hw']
      rw [abs_sub_lt_iff, not_and_or, not_lt, not_lt] at hc
      rcases hc with hc | hc
      · linarith
      · linarith

theorem dual_rounds_loop_gt (fuel : Nat) :
    ∀ (state : List (String × List Waypoint)) (c : ℚ),
      (∀ lw ∈ state, (lw.2.map Waypoint.time_s).Pairwise (· < ·)) →
      (∀ p ∈ head_waypoints state, c < p.2.time_s) →
      ∀ τ ∈ (dual_rounds_loop fuel state).map Prod.fst, c < τ := by
  induction fuel with
  | zero => intro state c _ _ τ hτ; simp [dual_rounds_loop] at hτ
  | succ n ih =>
    intro state c hsort hgt τ hτ
    rw [dual_rounds_loop] at hτ
    cases hh : head_waypoints state with
    | nil => rw [hh] at hτ; simp at hτ
    | cons h hs =>
      rw [hh] at hτ
      dsimp only at hτ
      rw [List.map_cons, List.mem_cons] at hτ
      have hch : c < h.2.time_s := hgt h (by rw [hh]; simp)
      have hcall : ∀ y ∈ hs.map (fun p => p.2.time_s), c < y := by
        intro y hy
        rw [List.mem_map] at hy
        obtain ⟨p, hp, rfl⟩ := hy
        exact hgt p (by rw [hh]; exact List.mem_cons_of_mem h hp)
      have hcnext : c < list_min_q h.2.time_s (hs.map (fun p => p.2.time_s)) :=
        lt_list_min_q c _ _ hch hcall
      rcases hτ with rfl | hτ2
      · exact hcnext
      · have hle := list_min_q_le h.2.time_s (hs.map (fun p => p.2.time_s))
        have hgenext : ∀ p ∈ head_waypoints state,
            list_min_q h.2.time_s (hs.map (fun p => p.2.time_s)) ≤ p.2.time_s := by
          intro p hp
          rw [hh, List.mem_cons] at hp
          rcases hp with rfl | hp2
          · exact hle.1
          · exact hle.2 _ (List.mem_map_of_mem _ hp2)
        exact ih (consume_round state _) c (consume_round_sorted state _ hsort)
          (fun p hp => lt_trans hcnext
            (consume_round_heads_gt state _ hsort hgenext p hp)) τ hτ2

theorem dual_rounds_loop_sorted (fuel : Nat) :
    ∀ state : List (String × List Waypoint),
      (∀ lw ∈ state, (lw.2.map Waypoint.time_s).Pairwise (· < ·)) →
      ((dual_rounds_loop fuel state).map Prod.fst).Pairwise (· < ·) := by
  induction fuel with
  | zero => intro state _; simp [dual_rounds_loop]
  | succ n ih =>
    intro state hsort
    rw [dual_rounds_loop]
    cases hh : head_waypoints state with
    | nil => simp
    | cons h hs =>
      dsimp only
      rw [List.map_cons, List.pairwise_cons]
      have hle := list_min_q_le h.2.time_s (hs.map (fun p => p.2.time_s))
      have hgenext : ∀ p ∈ head_waypoints state,
          list_min_q h.2.time_s (hs.map (fun p => p.2.time_s)) ≤ p.2.time_s := by
        intro p hp
        rw [hh, List.mem_cons] at hp
        rcases hp with rfl | hp2
        · exact hle.1
        · exact hle.2 _ (List.mem_map_of_mem _ hp2)
      constructor
      · exact dual_rounds_loop_gt n (consume_round state _) _
          (consume_round_sorted state _ hsort)
          (consume_round_heads_gt state _ hsort hgenext)
      · exact ih (consume_round state _) (consume_round_sorted state _ hsort)

/-- C7: on the scenario with arm "he" holding a waypoint at t = 1.0 s and arm
"she" holding waypoints at t = 1.0 s and t = 1.5 s, the executor's round
structure is exactly a round at t = 1.0 s dispatching both arms (in dict
order, before the wait to the next round) and a round at t = 1.5 s
dispatching only "she"; and in general, for arms with strictly increasing
waypoint times, heads within 1 ms of the round time are grouped into that
round and the rounds' times are strictly ascending. -/
theorem C7_dual_round_merge :
    (dual_rounds [("he", [⟨1, [0, 0, 0, 0, 0, 0]⟩]),
        ("she", [⟨1, [0, 0, 0, 0, 0, 0]⟩, ⟨3/2, [0, 0, 0, 0, 0, 0]⟩])]) =
      [(1, [("he", ⟨1, [0, 0, 0, 0, 0, 0]⟩), ("she", ⟨1, [0, 0, 0, 0, 0, 0]⟩)]),
        (3/2, [("she", ⟨3/2, [0, 0, 0, 0, 0, 0]⟩)])] ∧
    ∀ state : List (String × List Waypoint),
      (∀ lw ∈ state, (lw.2.map Waypoint.time_s).Pairwise (· < ·)) →
      ((dual_rounds state).map Prod.fst).Pairwise (· < ·) :=
  ⟨by decide, fun state hsort => dual_rounds_loop_sorted _ state hsort⟩


/-- C5 (the code evaluated at the failing input): `CHECKPOINT_RE` matches only
the `MM:SS.mmm - pose_name` prefix of a schedule line, so a ` groove-x2`
suffix is silently discarded, and the resulting `Checkpoint` — the dataclass
of `script.py`, which carries no groove-amplitude field at all — is identical
to the checkpoint parsed from the suffix-less line; no multiplier 2 (nor the
default 1.0 the spec requires) is recorded anywhere. -/
theorem C5_groove_suffix_discarded :
    parse_schedule ["00:01.000 - stand groove-x2"] = [Checkpoint.mk 1 "stand"] ∧
    parse_schedule ["00:01.000 - stand groove-x2"] =
      parse_schedule ["00:01.000 - stand"] := by
  constructor
  · decide
  · decide

/-- C8: loading the choreography with two checkpoints 1 second apart whose
poses differ by 200 degrees on J1 (staying inside the position limits),
against the 172 deg/s per-joint speed limit, returns normally and the
returned choreography carries exactly one warning string, which names the
joint `J1` and the checkpoint pair `A->B`. -/
theorem C8_speed_limit_single_warning :
    load_choreography_check
        [("A", ⟨"A", [-100, 0, 0, 0, 0, 0]⟩), ("B", ⟨"B", [100, 0, 0, 0, 0, 0]⟩)]
        [⟨0, "A"⟩, ⟨1, "B"⟩] =
      Except.ok
        ⟨[("A", ⟨"A", [-100, 0, 0, 0, 0, 0]⟩), ("B", ⟨"B", [100, 0, 0, 0, 0, 0]⟩)],
          [⟨0, "A"⟩, ⟨1, "B"⟩],
          ["Speed limit: A->B J1: 200.0 deg/s > 172.0 deg/s"]⟩ := by
  decide

/-- C10: the gripper command encoder does not clamp its input — position 2.0
encodes to the on-wire value 140000 > 70000 and position -0.5 encodes to
-35000 < 0 — while the feedback decode path clamps every raw reading into
[0, 1]. -/
theorem C10_gripper_command_unclamped_feedback_clamped :
    gripper_command_pos 2 = 140000 ∧ (70000 : ℤ) < 140000 ∧
    gripper_command_pos (-(1/2)) = -35000 ∧ (-35000 : ℤ) < 0 ∧
    ∀ raw : ℤ, 0 ≤ decode_gripper_feedback raw ∧ decode_gripper_feedback raw ≤ 1 := by
  refine ⟨by decide, by decide, by decide, by decide, ?_⟩
  intro raw
  constructor
  · exact le_max_left 0 _
  · unfold decode_gripper_feedback
    exact max_le (by norm_num) (min_le_left 1 _)

end Verification

end PipDance
